import Mathlib

/-!
# Verification of the OFAC screening pipeline (`checker.js` / `server.js`)

A shallow embedding of the core screening pipeline of the OFAC_Server
repository: text normalization (`normalizeText`), the reference-corpus
loader (`loadCSVFolder`), the full-coverage prefix matcher (`searchName`),
the orchestrator loop of `runChecker`, and the SSE progress channel of the
`/upload` route in `server.js`.

Conventions of the embedding:
* JavaScript strings are modelled by `String` (a list of characters);
  `.toUpperCase()` is modelled character-wise by `Char.toUpper`
  (basic-latin uppercasing), `String.prototype.split(" ")` by `splitSp`,
  `ew.startsWith(pw)` by `List.isPrefixOf` on the character lists.
* The filesystem inputs are passed as already-parsed values: a CSV folder
  is a list of `(filename, rows)` pairs where a row is the list of the
  row object's values, and the uploaded XLSX sheet is a list of records
  with the two optional name columns.
* The Puppeteer side effects are modelled by an oracle
  `shotFails : Nat → Bool` saying whether `takeScreenshot` throws for the
  i-th subject; the screenshot files actually written are collected in
  `RunOutput.shots`.  (`page`, timeouts and the browser launch are not
  needed by any claim; a browser-launch failure would abort the run.)
* Fallible code returns `Except String`, mirroring `throw new Error(msg)`.
-/

/-- The characters removed by `replace(/[\.,\-']/g, "")` in `normalizeText`
(`checker.js` line 22). -/
def isStripChar (c : Char) : Bool :=
  c = '.' || c = ',' || c = '-' || c = '\''

/-- The character class `\s` of the regex `/\s+/g` in `normalizeText`
(`checker.js` line 23): JavaScript whitespace. -/
def isWSChar (c : Char) : Bool :=
  c = ' ' || c = '\t' || c = '\n' || c = '\x0b' || c = '\x0c' || c = '\r' ||
  c = '\u00a0' || c = '\u1680' || ('\u2000' ≤ c && c ≤ '\u200a') ||
  c = '\u2028' || c = '\u2029' || c = '\u202f' || c = '\u205f' ||
  c = '\u3000' || c = '\ufeff'

/-- `replace(/\s+/g, " ")`: every maximal run of whitespace becomes a
single space (`checker.js` line 23). -/
def collapseWS : List Char → List Char
  | [] => []
  | [c] => if isWSChar c then [' '] else [c]
  | c :: d :: rest =>
    if isWSChar c && isWSChar d then collapseWS (d :: rest)
    else (if isWSChar c then ' ' else c) :: collapseWS (d :: rest)

/-- Left part of `String.prototype.trim()`. -/
def trimL (l : List Char) : List Char := l.dropWhile isWSChar

/-- Right part of `String.prototype.trim()`. -/
def trimR (l : List Char) : List Char := (l.reverse.dropWhile isWSChar).reverse

/-- `String.prototype.trim()` (`checker.js` line 24). -/
def trimWS (l : List Char) : List Char := trimL (trimR l)

/-- The normalization pipeline of `normalizeText` after the falsy guard
(`checker.js` lines 19-24): uppercase, strip `.`-`,`-`-`-`'`, collapse
whitespace runs to one space, trim. -/
def normCore (l : List Char) : List Char :=
  trimWS (collapseWS ((l.map Char.toUpper).filter (fun c => !(isStripChar c))))

/-- `normalizeText` (`checker.js` lines 17-25) on a string argument; the
`if (!text) return ""` guard catches the empty string. -/
def normalizeText (s : String) : String :=
  if s = "" then "" else ⟨normCore s.data⟩

/-- `normalizeText` on a possibly-`null`/`undefined` argument: the
`if (!text) return ""` guard also maps `null` to `""`. -/
def normalizeTextVal : Option String → String
  | none => ""
  | some s => normalizeText s

/-- `String.prototype.split(" ")` (single-space separator, not a regex),
as used for `pubWords` and `entry.words`: the empty string splits to
`[""]`, and consecutive separators produce empty fields. -/
def splitSp : List Char → List (List Char)
  | [] => [[]]
  | c :: rest =>
    if c = ' ' then [] :: splitSp rest
    else
      match splitSp rest with
      | [] => [[c]]
      | w :: ws => (c :: w) :: ws

/-- `split(" ")` lifted to `String`. -/
def splitSpS (s : String) : List String := (splitSp s.data).map String.mk

/-- `ew.startsWith(pw)` from the matcher (`checker.js` line 65). -/
def jsStartsWith (ew pw : String) : Bool := pw.data.isPrefixOf ew.data

/-- A `ReferenceEntry`: one flattened, normalized corpus cell
(`checker.js` lines 51-55). -/
structure RefEntry where
  id : String
  name : String
  words : List String
deriving DecidableEq

/-- One element of `searchName`'s result (`checker.js` line 68). -/
structure MatchResult where
  id : String
  matchedName : String
  score : ℚ
deriving DecidableEq

/-- The body of the `entries.map` arrow in `searchName` (`checker.js`
lines 63-70): count the subject tokens covered by some entry token,
divide by the subject token count, keep the entry iff the score is 1. -/
def searchHit (pubWords : List String) (entry : RefEntry) : Option MatchResult :=
  let matchedWords := pubWords.filter (fun pw => entry.words.any (fun ew => jsStartsWith ew pw))
  let score : ℚ := (matchedWords.length : ℚ) / (pubWords.length : ℚ)
  if score = 1 then some { id := entry.id, matchedName := entry.name, score := score }
  else none

/-- `searchName` (`checker.js` lines 59-72): map every entry through the
scoring arrow and drop the `null`s (`.filter(Boolean)`). -/
def searchName (publisherName : String) (entries : List RefEntry) : List MatchResult :=
  let pubWords := splitSpS (normalizeText publisherName)
  (entries.map (searchHit pubWords)).filterMap id

/-- One CSV file of the corpus folder, already parsed: its filename and,
per data row, the list of the row object's values (`Object.values(row)`). -/
structure CSVFile where
  filename : String
  rows : List (List String)
deriving DecidableEq

/-- `fs.readdirSync(folder).filter((f) => f.endsWith(".csv"))`
(`checker.js` line 29). -/
def csvFiles (folder : List CSVFile) : List CSVFile :=
  folder.filter (fun f => f.filename.endsWith ".csv")

/-- The flattened corpus: every cell of every row of every qualifying
file, normalized, keeping the truthy (non-empty) ones, in file/row/cell
order (`checker.js` lines 34-47). -/
def corpusCells (folder : List CSVFile) : List String :=
  (csvFiles folder).flatMap (fun f =>
    f.rows.flatMap (fun row => (row.map normalizeText).filter (fun s => s != "")))

/-- `entries.map((name, i) => ({id, name, words}))` (`checker.js` lines
51-55), carrying the running index. -/
def mkEntries : Nat → List String → List RefEntry
  | _, [] => []
  | i, nm :: rest =>
    { id := "entry_" ++ toString (i + 1), name := nm, words := splitSpS nm }
      :: mkEntries (i + 1) rest

/-- `loadCSVFolder` (`checker.js` lines 28-56): throws if no `.csv` file
qualifies or if no non-empty normalized cell remains, else returns the
indexed reference entries. -/
def loadCSVFolder (folder : List CSVFile) : Except String (List RefEntry) :=
  let files := csvFiles folder
  if files.length = 0 then .error "No CSV files found in folder."
  else
    let entries := corpusCells folder
    if entries.length = 0 then .error "No entries loaded from CSVs."
    else .ok (mkEntries 0 entries)

/-- One row of the uploaded publishers sheet, with the two recognized
name columns (`checker.js` lines 110-112). -/
structure PubRow where
  nameAsPerBankAccount : Option String
  name : Option String
deriving DecidableEq

/-- JavaScript `a || b` for an optional string `a`: `a` unless it is
missing or empty. -/
def jsOr (a : Option String) (b : String) : String :=
  match a with
  | none => b
  | some s => if s = "" then b else s

/-- `r["Name as per Bank Account"] || r["Name"] || ""` (`checker.js`
line 111). -/
def pubName (r : PubRow) : String :=
  jsOr r.nameAsPerBankAccount (jsOr r.name "")

/-- `(pub.Name || "EMPTY").replace(/[^a-zA-Z0-9]/g, "_")` (`checker.js`
line 149). -/
def safeName (nm : String) : String :=
  ⟨(if nm = "" then "EMPTY" else nm).data.map (fun c => if c.isAlphanum then c else '_')⟩

/-- The fixed maximum Excel cell length (`checker.js` line 13). -/
def MAX_CELL_LENGTH : Nat := 32000

/-- The truncation of the joined `Matches` string (`checker.js` lines
187-190): over-long strings are cut to `MAX_CELL_LENGTH` characters and
the marker `" ...[truncated]"` is appended. -/
def truncateMatches (s : String) : String :=
  if s.length > MAX_CELL_LENGTH then String.mk (s.data.take MAX_CELL_LENGTH) ++ " ...[truncated]"
  else s

/-- `Number.prototype.toFixed(2)` for the (rational) scores stored by the
matcher: round to two decimal places and print with a two-digit fraction
(`checker.js` line 185). -/
def toFixed2 (q : ℚ) : String :=
  let n : Int := round (q * 100)
  toString (n / 100) ++ "." ++
    (if n % 100 < 10 then "0" ++ toString (n % 100) else toString (n % 100))

/-- The joined matches cell before truncation:
`matches.map((m) => `${name} (score: ..)`).join("; ")` (`checker.js`
lines 184-186). -/
def matchesStr (ms : List MatchResult) : String :=
  String.intercalate "; "
    (ms.map (fun m => m.matchedName ++ " (score: " ++ toFixed2 m.score ++ ")"))

/-- The Excel `Screenshot` cell: either the structured hyperlink object
`{text, hyperlink}` or an empty cell. `checker.js` (line 197) always
stores the hyperlink form; the emptiness alternative exists so that the
specified behavior can be stated. -/
inductive ScreenshotVal where
  | link (text : String) (hyperlink : String)
  | empty
deriving DecidableEq

/-- One report row pushed by the `runChecker` loop (`checker.js` lines
192-198). -/
structure ReportRow where
  Publisher : String
  MatchStatus : String
  MatchCount : Nat
  Matches : String
  Screenshot : ScreenshotVal
deriving DecidableEq

/-- One invocation of `progressCallback(current, total, name, extraText)`
(`checker.js` lines 151-152 and 170-176). -/
structure ProgressEvent where
  current : Nat
  total : Nat
  subjectName : String
  extraText : String
deriving DecidableEq

/-- The report row built for subject `i` (0-based) with display name
`nm`: match, derive status/count, join and truncate the matches string,
and attach the screenshot hyperlink (`checker.js` lines 155-198). -/
def subjRow (entries : List RefEntry) (i : Nat) (nm : String) : ReportRow :=
  let ms := searchName nm entries
  let status := if ms.length > 0 then "MATCH" else "CLEAR"
  let linkPath := "./screenshots/" ++ safeName nm ++ "_" ++ toString (i + 1) ++ ".png"
  { Publisher := nm
    MatchStatus := status
    MatchCount := ms.length
    Matches := truncateMatches (matchesStr ms)
    Screenshot := ScreenshotVal.link "View Screenshot" linkPath }

/-- The two progress events emitted for subject `i`: before the search
(`checker.js` line 152) and, inside the `try`, before `takeScreenshot`
(`checker.js` lines 170-176). -/
def subjEvents (total : Nat) (i : Nat) (nm : String) : List ProgressEvent :=
  [ { current := i + 1, total := total, subjectName := nm,
      extraText := "Searching SDN/ALT lists" },
    { current := i + 1, total := total, subjectName := nm,
      extraText := "Taking screenshot for \"" ++ nm ++ "\"" } ]

/-- Whether a screenshot file is written for subject `i`, and its path
relative to the results folder: `takeScreenshot` returns immediately for
an empty name (`checker.js` line 76) and writes nothing when it throws
(the `catch` at lines 178-180 swallows the error). -/
def subjShot (shotFails : Nat → Bool) (i : Nat) (nm : String) : Option String :=
  if nm = "" then none
  else if shotFails i then none
  else some ("screenshots/" ++ safeName nm ++ "_" ++ toString (i + 1) ++ ".png")

/-- Everything the `for` loop of `runChecker` accumulates: the report
rows, the progress events and the screenshot files written. -/
structure LoopOut where
  rows : List ReportRow
  events : List ProgressEvent
  shots : List String
deriving DecidableEq

/-- The `for (let i = 0; i < total; i++)` loop of `runChecker`
(`checker.js` lines 147-199), processing the remaining subject names
starting at index `i`.  A `takeScreenshot` failure (per the `shotFails`
oracle) loses the screenshot file but the row and both events are still
produced and the loop continues. -/
def runLoop (entries : List RefEntry) (total : Nat) (shotFails : Nat → Bool)
    (i : Nat) : List String → LoopOut
  | [] => { rows := [], events := [], shots := [] }
  | nm :: rest =>
    let tail := runLoop entries total shotFails (i + 1) rest
    { rows := subjRow entries i nm :: tail.rows
      events := subjEvents total i nm ++ tail.events
      shots :=
        match subjShot shotFails i nm with
        | some p => p :: tail.shots
        | none => tail.shots }

/-- The observable outcome of a completed `runChecker` call. -/
structure RunOutput where
  resultsFolder : String
  rows : List ReportRow
  events : List ProgressEvent
  shots : List String
deriving DecidableEq

/-- `runChecker` (`checker.js` lines 98-233): load the corpus (aborting
on its errors before any subject is touched), resolve the subject names
from the sheet rows, then run the per-subject loop.  `timestamp` stands
for the formatted `new Date().toISOString()` value of line 117. -/
def runChecker (folder : List CSVFile) (sheetRows : List PubRow)
    (shotFails : Nat → Bool) (timestamp downloadsFolder : String) :
    Except String RunOutput :=
  match loadCSVFolder folder with
  | .error e => .error e
  | .ok entries =>
    let publishers := sheetRows.map pubName
    let total := publishers.length
    let resultsFolder := downloadsFolder ++ "/OFAC Results " ++ timestamp
    let out := runLoop entries total shotFails 0 publishers
    .ok { resultsFolder := resultsFolder, rows := out.rows,
          events := out.events, shots := out.shots }

/-- One event written to the SSE channel by `server.js`. -/
inductive SSEEvent where
  | progress (current total : Nat) (status : String)
  | done (zipFilename : String)
deriving DecidableEq

/-- The SSE write performed by the progress callback of the `/upload`
route (`server.js` lines 54-66): `status` is `extraText` unless that is
empty, in which case the default processing message is used. -/
def sseOfProgress (e : ProgressEvent) : SSEEvent :=
  .progress e.current e.total
    (if e.extraText = "" then
      "Processing \"" ++ e.subjectName ++ "\" (" ++ toString e.current ++ "/" ++
        toString e.total ++ ")..."
     else e.extraText)

/-- `path.basename`: the part of the path after the last `/`. -/
def pathBase (p : String) : String := (p.splitOn "/").getLastD ""

/-- `` `${path.basename(resultsFolder)}.zip` `` (`server.js` line 70). -/
def zipNameOf (resultsFolder : String) : String := pathBase resultsFolder ++ ".zip"

/-- Is an SSE event the terminal `{done: true, ...}` event? -/
def isDoneEvent : SSEEvent → Bool
  | .done _ => true
  | .progress _ _ _ => false

/-- The full SSE channel of one completed `/upload` run with a consumer
attached throughout (`server.js` lines 43-92): every progress callback
write, then exactly one terminal `{done: true, zipFilename}` write after
the archive is finalized. -/
def uploadChannel (out : RunOutput) : List SSEEvent :=
  out.events.map sseOfProgress ++ [SSEEvent.done (zipNameOf out.resultsFolder)]

/-- Full coverage of one entry by the subject's tokens: every subject
token is a prefix of some token of the entry (the §4.4 "full coverage"
predicate, extracted from the `score === 1` test of `searchName`). -/
def fullCov (name : String) (e : RefEntry) : Bool :=
  (splitSpS (normalizeText name)).all (fun pw => e.words.any (fun ew => jsStartsWith ew pw))

/-- Full coverage of a corpus *name* (an entry whose `words` are the
split of that name, as `loadCSVFolder` builds them) by the subject's
tokens. -/
def coversName (p N : String) : Bool :=
  (splitSpS (normalizeText p)).all (fun pw => (splitSpS N).any (fun ew => jsStartsWith ew pw))

/-- Extract the payload of a successful `loadCSVFolder` call. -/
def okEntries : Except String (List RefEntry) → List RefEntry
  | .ok v => v
  | .error _ => []

/-- Extract the payload of a successful `runChecker` call. -/
def okOut : Except String RunOutput → RunOutput
  | .ok o => o
  | .error _ => { resultsFolder := "", rows := [], events := [], shots := [] }

/-- A one-file corpus folder used for concrete instantiations. -/
def cFolder : List CSVFile := [{ filename := "sdn.csv", rows := [["John Smith"]] }]

/-- Two subjects: one ordinary name and one with an empty name cell. -/
def cPubs : List PubRow :=
  [{ nameAsPerBankAccount := some "John Smith", name := none },
   { nameAsPerBankAccount := none, name := some "" }]

/-- A capture oracle that makes `takeScreenshot` throw for every subject. -/
def cFailsAll : Nat → Bool := fun _ => true

/-- A concrete completed run: `cFolder` corpus, `cPubs` subjects, every
screenshot attempt failing. -/
def cRun : Except String RunOutput := runChecker cFolder cPubs cFailsAll "T" "D"

/-- The output of `cRun`. -/
def cOut : RunOutput := okOut cRun

/-- A single-subject sheet. -/
def cPubs1 : List PubRow := [{ nameAsPerBankAccount := some "Acme", name := none }]

/-- A concrete completed one-subject run with no capture failures. -/
def cRun1 : Except String RunOutput := runChecker cFolder cPubs1 (fun _ => false) "T" "D"

/-- The output of `cRun1`. -/
def cOut1 : RunOutput := okOut cRun1

/-- A corpus folder in which the same cell value occurs twice. -/
def wDupFolder : List CSVFile :=
  [{ filename := "sdn.csv", rows := [["John Smith", "John Smith"]] }]

/-- The entries loaded from `wDupFolder`. -/
def wDupEntries : List RefEntry := okEntries (loadCSVFolder wDupFolder)

/-- A 32001-character string, exceeding `MAX_CELL_LENGTH`. -/
def bigS : String := ⟨List.replicate 32001 'A'⟩

/-- The `Screenshot` hyperlink cells the loop stores for the remaining
subjects starting at index `i` (`checker.js` lines 182 and 197). -/
def expectedLinks (i : Nat) : List String → List ScreenshotVal
  | [] => []
  | nm :: rest =>
    ScreenshotVal.link "View Screenshot"
        ("./screenshots/" ++ safeName nm ++ "_" ++ toString (i + 1) ++ ".png")
      :: expectedLinks (i + 1) rest

/-- Invariant of collapsed text: two adjacent characters are never both
whitespace (used to characterize the output of `collapseWS`). -/
def wsOK (a b : Char) : Prop := ¬(isWSChar a = true ∧ isWSChar b = true)

-- ===== Theorems =====

theorem char_toNat_ofNat (n : Nat) (h : n < 0xd800) : (Char.ofNat n).toNat = n := by
  unfold Char.ofNat
  rw [dif_pos (Or.inl h)]
  simp [Char.ofNatAux, Char.toNat, UInt32.toNat]

theorem toUpper_idem (c : Char) : c.toUpper.toUpper = c.toUpper := by
  show Char.toUpper (Char.toUpper c) = Char.toUpper c
  unfold Char.toUpper
  by_cases h : c.toNat ≥ 97 ∧ c.toNat ≤ 122
  · simp only [if_pos h]
    have h2 : (Char.ofNat (c.toNat - 32)).toNat = c.toNat - 32 :=
      char_toNat_ofNat _ (by omega)
    rw [if_neg (by rw [h2]; omega)]
  · simp only [if_neg h]

theorem splitSp_ne_nil (l : List Char) : splitSp l ≠ [] := by
  cases l with
  | nil => simp [splitSp]
  | cons c rest =>
    unfold splitSp
    by_cases h : c = ' '
    · simp [h]
    · simp only [if_neg h]
      cases splitSp rest <;> simp

theorem splitSpS_ne_nil (s : String) : splitSpS s ≠ [] := by
  unfold splitSpS
  intro h
  exact splitSp_ne_nil s.data (List.map_eq_nil_iff.mp h)

theorem searchHit_eq (pubWords : List String) (hne : pubWords ≠ []) (e : RefEntry) :
    searchHit pubWords e =
      if pubWords.all (fun pw => e.words.any (fun ew => jsStartsWith ew pw))
      then some { id := e.id, matchedName := e.name, score := 1 }
      else none := by
  have hlen : (pubWords.length : ℚ) ≠ 0 := by
    simpa using fun h => hne (List.length_eq_zero.mp h)
  unfold searchHit
  by_cases hall : pubWords.all (fun pw => e.words.any (fun ew => jsStartsWith ew pw)) = true
  · have hfilter :
        pubWords.filter (fun pw => e.words.any (fun ew => jsStartsWith ew pw)) = pubWords :=
      List.filter_eq_self.mpr (List.all_eq_true.mp hall)
    simp only [hfilter, div_self hlen, if_pos hall]
    exact if_pos trivial
  · rw [if_neg hall]
    have hlt :
        (pubWords.filter (fun pw => e.words.any (fun ew => jsStartsWith ew pw))).length ≠
          pubWords.length := by
      intro hcontra
      exact hall (List.all_eq_true.mpr (List.filter_eq_self.mp
        ((List.filter_sublist pubWords).eq_of_length hcontra)))
    rw [if_neg]
    rw [div_eq_one_iff_eq hlen]
    exact_mod_cast hlt

theorem searchName_eq (name : String) (entries : List RefEntry) :
    searchName name entries =
      (entries.filter (fullCov name)).map
        (fun e => { id := e.id, matchedName := e.name, score := 1 }) := by
  unfold searchName
  induction entries with
  | nil => rfl
  | cons e es ih =>
    simp only [List.map_cons, List.filterMap_cons, List.filter_cons]
    rw [show searchHit (splitSpS (normalizeText name)) e =
          if fullCov name e then some { id := e.id, matchedName := e.name, score := 1 }
          else none from
      searchHit_eq _ (splitSpS_ne_nil _) e]
    by_cases h : fullCov name e = true
    · simp only [if_pos h, id, List.map_cons]
      exact congrArg _ ih
    · simp only [if_neg h, Bool.false_eq_true, id]
      exact ih

/-- C2: a reference entry appears in `searchName`'s result iff every
token of the normalized subject name is a prefix of some token of that
entry (`fullCov`); the result is exactly the covered entries, in corpus
order, and every stored score is exactly 1. -/
theorem C2_full_coverage_law (name : String) (entries : List RefEntry) :
    searchName name entries =
      (entries.filter (fullCov name)).map
        (fun e => { id := e.id, matchedName := e.name, score := 1 })
    ∧ ∀ r ∈ searchName name entries, r.score = 1 := by
  refine ⟨searchName_eq name entries, ?_⟩
  intro r hr
  rw [searchName_eq] at hr
  obtain ⟨e, _, rfl⟩ := List.mem_map.mp hr
  rfl

/-- C1 (code bug, concrete evaluation): a subject that normalizes to the
empty string is matched against **every** corpus entry with score 1,
because `"".split(" ")` is `[""]` and the empty string is a prefix of
every token — the code returns a full match list, not zero matches. -/
theorem C1_empty_subject_matches_all :
    normalizeText "..." = "" ∧
    searchName "..." [{ id := "entry_1", name := "JOHN SMITH", words := ["JOHN", "SMITH"] }] =
      [{ id := "entry_1", matchedName := "JOHN SMITH", score := 1 }] := by
  constructor
  · rfl
  · with_unfolding_all rfl

theorem mkEntries_map_name (i : Nat) (l : List String) :
    (mkEntries i l).map RefEntry.name = l := by
  induction l generalizing i with
  | nil => rfl
  | cons nm rest ih => simp [mkEntries, ih]

theorem mkEntries_words (i : Nat) (l : List String) :
    ∀ e ∈ mkEntries i l, e.words = splitSpS e.name := by
  induction l generalizing i with
  | nil => intro e he; simp [mkEntries] at he
  | cons nm rest ih =>
    intro e he
    rcases List.mem_cons.mp he with h | h
    · subst h; rfl
    · exact ih (i + 1) e h

/-- C10: `loadCSVFolder` never deduplicates — the entry names are exactly
the non-empty normalized cells, in order (so a name occurring in `k`
cells yields `k` entries), and a subject fully covering a corpus name
receives at least one match result per occurrence of that name. -/
theorem C10_no_dedup (folder : List CSVFile) (entries : List RefEntry)
    (h : loadCSVFolder folder = .ok entries) :
    entries.map RefEntry.name = corpusCells folder ∧
    ∀ p N : String, coversName p N = true →
      (corpusCells folder).count N ≤ (searchName p entries).length := by
  have hent : entries = mkEntries 0 (corpusCells folder) := by
    unfold loadCSVFolder at h
    by_cases h1 : (csvFiles folder).length = 0
    · simp [h1] at h
    · by_cases h2 : (corpusCells folder).length = 0
      · simp [h1, h2] at h
      · simp [h1, h2] at h; exact h.symm
  subst hent
  refine ⟨mkEntries_map_name 0 _, ?_⟩
  intro p N hcov
  rw [searchName_eq, List.length_map, ← List.countP_eq_length_filter]
  rw [show (corpusCells folder).count N =
        ((mkEntries 0 (corpusCells folder)).map RefEntry.name).count N from by
      rw [mkEntries_map_name]]
  rw [List.count_eq_countP, List.countP_map]
  apply List.countP_mono_left
  intro e he hbeq
  have hname : e.name = N := by simpa using hbeq
  have hw := mkEntries_words 0 _ e he
  unfold fullCov
  rw [hw, hname]
  exact hcov

theorem runChecker_ok {folder : List CSVFile} {sheetRows : List PubRow}
    {shotFails : Nat → Bool} {ts dl : String} {out : RunOutput}
    (h : runChecker folder sheetRows shotFails ts dl = .ok out) :
    ∃ entries, loadCSVFolder folder = .ok entries ∧
      out = { resultsFolder := dl ++ "/OFAC Results " ++ ts,
              rows := (runLoop entries (sheetRows.map pubName).length shotFails 0
                        (sheetRows.map pubName)).rows,
              events := (runLoop entries (sheetRows.map pubName).length shotFails 0
                          (sheetRows.map pubName)).events,
              shots := (runLoop entries (sheetRows.map pubName).length shotFails 0
                          (sheetRows.map pubName)).shots } := by
  unfold runChecker at h
  cases hload : loadCSVFolder folder with
  | error e => rw [hload] at h; cases h
  | ok entries =>
    rw [hload] at h
    exact ⟨entries, rfl, (Except.ok.inj h).symm⟩

theorem runLoop_rows_publisher (entries : List RefEntry) (total : Nat)
    (sf : Nat → Bool) : ∀ (names : List String) (i : Nat),
    (runLoop entries total sf i names).rows.map ReportRow.Publisher = names := by
  intro names
  induction names with
  | nil => intro i; rfl
  | cons nm rest ih => intro i; simp [runLoop, subjRow, ih]

theorem runLoop_rows_mem (entries : List RefEntry) (total : Nat)
    (sf : Nat → Bool) : ∀ (names : List String) (i : Nat) (row : ReportRow),
    row ∈ (runLoop entries total sf i names).rows →
    ∃ j nm, row = subjRow entries j nm := by
  intro names
  induction names with
  | nil => intro i row hmem; simp [runLoop] at hmem
  | cons nm rest ih =>
    intro i row hmem
    rcases List.mem_cons.mp hmem with h | h
    · exact ⟨i, nm, h⟩
    · exact ih (i + 1) row h

theorem runLoop_screens (entries : List RefEntry) (total : Nat)
    (sf : Nat → Bool) : ∀ (names : List String) (i : Nat),
    (runLoop entries total sf i names).rows.map ReportRow.Screenshot =
      expectedLinks i names := by
  intro names
  induction names with
  | nil => intro i; rfl
  | cons nm rest ih => intro i; simp [runLoop, subjRow, expectedLinks, ih]

theorem runLoop_events_current (entries : List RefEntry) (total : Nat)
    (sf : Nat → Bool) : ∀ (names : List String) (i : Nat),
    (runLoop entries total sf i names).events.map ProgressEvent.current =
      (List.range names.length).flatMap (fun k => [i + k + 1, i + k + 1]) := by
  intro names
  induction names with
  | nil => intro i; rfl
  | cons nm rest ih =>
    intro i
    show ProgressEvent.current (⟨i + 1, total, nm, "Searching SDN/ALT lists"⟩ : ProgressEvent)
          :: ProgressEvent.current
              (⟨i + 1, total, nm, "Taking screenshot for \"" ++ nm ++ "\""⟩ : ProgressEvent)
          :: (runLoop entries total sf (i + 1) rest).events.map ProgressEvent.current = _
    rw [ih (i + 1), List.length_cons, List.range_succ_eq_map, List.flatMap_cons,
        List.flatMap_map]
    have harith : ∀ k : Nat, i + 1 + k + 1 = i + (k + 1) + 1 := by omega
    simp only [Function.comp, Nat.succ_eq_add_one, harith]
    rfl

theorem subjRow_inv (entries : List RefEntry) (j : Nat) (nm : String) :
    ((subjRow entries j nm).MatchStatus = "MATCH" ↔ 0 < (subjRow entries j nm).MatchCount) ∧
    ((subjRow entries j nm).MatchStatus = "MATCH" ∨
      ((subjRow entries j nm).MatchStatus = "CLEAR" ∧ (subjRow entries j nm).MatchCount = 0)) := by
  have hst : (subjRow entries j nm).MatchStatus =
      if (searchName nm entries).length > 0 then "MATCH" else "CLEAR" := rfl
  have hct : (subjRow entries j nm).MatchCount = (searchName nm entries).length := rfl
  rcases Nat.eq_zero_or_pos (searchName nm entries).length with hz | hp
  · rw [hst, hct, hz]
    simp
  · rw [hst, hct, if_pos hp]
    simp [hp]

/-- C3: a completed `runChecker` run produces exactly one report row per
sheet row, in input order, whatever the screenshot-failure oracle does
(in particular when `takeScreenshot` throws for every subject). -/
theorem C3_one_row_per_subject (folder : List CSVFile) (sheetRows : List PubRow)
    (shotFails : Nat → Bool) (ts dl : String) (out : RunOutput)
    (h : runChecker folder sheetRows shotFails ts dl = .ok out) :
    out.rows.map ReportRow.Publisher = sheetRows.map pubName ∧
    out.rows.length = sheetRows.length := by
  obtain ⟨entries, _, hout⟩ := runChecker_ok h
  subst hout
  constructor
  · exact runLoop_rows_publisher entries _ shotFails (sheetRows.map pubName) 0
  · have h2 := congrArg List.length
      (runLoop_rows_publisher entries (sheetRows.map pubName).length shotFails
        (sheetRows.map pubName) 0)
    simpa using h2

/-- C4: in every produced report row, `MatchStatus = "MATCH"` iff
`MatchCount > 0`, and otherwise the status is `"CLEAR"` with
`MatchCount = 0`. -/
theorem C4_status_iff_count (folder : List CSVFile) (sheetRows : List PubRow)
    (shotFails : Nat → Bool) (ts dl : String) (out : RunOutput)
    (h : runChecker folder sheetRows shotFails ts dl = .ok out) :
    ∀ row ∈ out.rows,
      (row.MatchStatus = "MATCH" ↔ 0 < row.MatchCount) ∧
      (row.MatchStatus = "MATCH" ∨ (row.MatchStatus = "CLEAR" ∧ row.MatchCount = 0)) := by
  obtain ⟨entries, _, hout⟩ := runChecker_ok h
  subst hout
  intro row hrow
  obtain ⟨j, nm, rfl⟩ := runLoop_rows_mem entries _ shotFails (sheetRows.map pubName) 0 row hrow
  exact subjRow_inv entries j nm

/-- C5 counterexample: in the concrete run `cRun` every capture attempt
throws and the second subject's name is empty (capture skipped before
any file write), so no screenshot artifact exists at all — yet both
rows' `Screenshot` cells are structured hyperlinks, not empty, refuting
"empty when capture failed or was skipped". -/
theorem C5_claim_false :
    cRun.map (fun o => (o.rows.map ReportRow.Screenshot, o.shots)) =
      .ok ([ScreenshotVal.link "View Screenshot" "./screenshots/John_Smith_1.png",
            ScreenshotVal.link "View Screenshot" "./screenshots/EMPTY_2.png"], []) ∧
    ScreenshotVal.link "View Screenshot" "./screenshots/EMPTY_2.png" ≠ ScreenshotVal.empty := by
  constructor
  · with_unfolding_all rfl
  · intro hcontra; cases hcontra

/-- C5 (amended): the `Screenshot` cell of every report row is always the
structured hyperlink `{text: "View Screenshot", hyperlink: ./screenshots/
{safeName}_{i+1}.png}`, regardless of whether a screenshot artifact
exists; an artifact is absent exactly when the subject's name is empty
(capture skipped) or the capture threw. -/
theorem C5_screenshot_always_link (folder : List CSVFile) (sheetRows : List PubRow)
    (shotFails : Nat → Bool) (ts dl : String) (out : RunOutput)
    (h : runChecker folder sheetRows shotFails ts dl = .ok out) :
    out.rows.map ReportRow.Screenshot = expectedLinks 0 (sheetRows.map pubName) ∧
    ∀ i nm, subjShot shotFails i nm = none ↔ (nm = "" ∨ shotFails i = true) := by
  obtain ⟨entries, _, hout⟩ := runChecker_ok h
  subst hout
  constructor
  · exact runLoop_screens entries _ shotFails (sheetRows.map pubName) 0
  · intro i nm
    unfold subjShot
    by_cases h1 : nm = "" <;> by_cases h2 : shotFails i <;> simp [h1, h2]

/-- C6 counterexample: the one-subject run `cRun1` emits two progress
events for its single subject, so the `current` sequence is `[1, 1]`,
which is not strictly increasing — refuting "current strictly increases
1..total". -/
theorem C6_claim_false :
    cRun1.map (fun o => o.events.map ProgressEvent.current) = .ok [1, 1] ∧
    ¬ List.Chain' (fun a b : Nat => a < b) [1, 1] := by
  constructor
  · with_unfolding_all rfl
  · intro hcontra
    simp [List.chain'_cons] at hcontra

/-- C6 (amended): the `current` fields of the progress events are exactly
`1, 1, 2, 2, ..., total, total` in order (non-decreasing, each subject
index occurring twice, once per callback invocation), and the SSE channel
carries exactly one terminal `done` event — with the zip artifact name —
as its last element. -/
theorem C6_progress_shape (folder : List CSVFile) (sheetRows : List PubRow)
    (shotFails : Nat → Bool) (ts dl : String) (out : RunOutput)
    (h : runChecker folder sheetRows shotFails ts dl = .ok out) :
    out.events.map ProgressEvent.current =
      (List.range sheetRows.length).flatMap (fun k => [k + 1, k + 1]) ∧
    (uploadChannel out).filter isDoneEvent = [SSEEvent.done (zipNameOf out.resultsFolder)] ∧
    (uploadChannel out).getLast? = some (SSEEvent.done (zipNameOf out.resultsFolder)) := by
  obtain ⟨entries, _, hout⟩ := runChecker_ok h
  subst hout
  refine ⟨?_, ?_, ?_⟩
  · have hc := runLoop_events_current entries (sheetRows.map pubName).length shotFails
      (sheetRows.map pubName) 0
    simpa using hc
  · unfold uploadChannel
    rw [List.filter_append]
    have hnone :
        ((runLoop entries (sheetRows.map pubName).length shotFails 0
            (sheetRows.map pubName)).events.map sseOfProgress).filter isDoneEvent = [] := by
      rw [List.filter_eq_nil_iff]
      intro a ha
      obtain ⟨e, _, rfl⟩ := List.mem_map.mp ha
      simp [sseOfProgress, isDoneEvent]
    rw [hnone]
    rfl
  · exact List.getLast?_concat _

/-- C7: if the corpus folder yields no qualifying CSV file or no
non-empty normalized cell, `runChecker` fails with the corresponding
fatal error before any subject is processed — the result is an `error`
carrying no rows, no events and no artifacts. -/
theorem C7_empty_corpus_aborts (folder : List CSVFile) (sheetRows : List PubRow)
    (shotFails : Nat → Bool) (ts dl : String)
    (h : corpusCells folder = []) :
    runChecker folder sheetRows shotFails ts dl =
      .error (if (csvFiles folder).length = 0 then "No CSV files found in folder."
              else "No entries loaded from CSVs.") := by
  unfold runChecker loadCSVFolder
  by_cases hf : (csvFiles folder).length = 0
  · simp [hf]
  · simp [hf, h]

/-- C8: the `Matches` cell truncation — a joined string longer than
`MAX_CELL_LENGTH` is stored with length exactly `MAX_CELL_LENGTH + 15`
(the marker `" ...[truncated]"` has 15 characters) and ends in the
marker; a string at or under the maximum is stored unchanged. -/
theorem C8_truncation (s : String) :
    (s.length > MAX_CELL_LENGTH →
      (truncateMatches s).length = MAX_CELL_LENGTH + 15 ∧
      " ...[truncated]".data <:+ (truncateMatches s).data) ∧
    (s.length ≤ MAX_CELL_LENGTH → truncateMatches s = s) := by
  constructor
  · intro h
    unfold truncateMatches
    rw [if_pos h]
    constructor
    · rw [String.length_append]
      have htake : (String.mk (s.data.take MAX_CELL_LENGTH)).length = MAX_CELL_LENGTH := by
        show (s.data.take MAX_CELL_LENGTH).length = MAX_CELL_LENGTH
        rw [List.length_take]
        exact min_eq_left (Nat.le_of_lt h)
      rw [htake]
      rfl
    · exact ⟨s.data.take MAX_CELL_LENGTH, rfl⟩
  · intro h
    unfold truncateMatches
    rw [if_neg (by omega)]

theorem C3_one_row_per_subject_witness :
    runChecker cFolder cPubs cFailsAll "T" "D" = .ok cOut ∧
    cOut.rows.map ReportRow.Publisher = cPubs.map pubName ∧
    cOut.rows.length = cPubs.length := by
  have hok : runChecker cFolder cPubs cFailsAll "T" "D" = .ok cOut := by
    with_unfolding_all rfl
  have hmain := C3_one_row_per_subject cFolder cPubs cFailsAll "T" "D" cOut hok
  exact ⟨hok, hmain.1, hmain.2⟩

theorem C4_status_iff_count_witness :
    runChecker cFolder cPubs cFailsAll "T" "D" = .ok cOut ∧
    ∀ row ∈ cOut.rows,
      (row.MatchStatus = "MATCH" ↔ 0 < row.MatchCount) ∧
      (row.MatchStatus = "MATCH" ∨ (row.MatchStatus = "CLEAR" ∧ row.MatchCount = 0)) := by
  have hok : runChecker cFolder cPubs cFailsAll "T" "D" = .ok cOut := by
    with_unfolding_all rfl
  exact ⟨hok, C4_status_iff_count cFolder cPubs cFailsAll "T" "D" cOut hok⟩

theorem C5_screenshot_always_link_witness :
    runChecker cFolder cPubs cFailsAll "T" "D" = .ok cOut ∧
    cOut.rows.map ReportRow.Screenshot = expectedLinks 0 (cPubs.map pubName) ∧
    ∀ i nm, subjShot cFailsAll i nm = none ↔ (nm = "" ∨ cFailsAll i = true) := by
  have hok : runChecker cFolder cPubs cFailsAll "T" "D" = .ok cOut := by
    with_unfolding_all rfl
  have hmain := C5_screenshot_always_link cFolder cPubs cFailsAll "T" "D" cOut hok
  exact ⟨hok, hmain.1, hmain.2⟩

theorem C6_progress_shape_witness :
    runChecker cFolder cPubs cFailsAll "T" "D" = .ok cOut ∧
    cOut.events.map ProgressEvent.current =
      (List.range cPubs.length).flatMap (fun k => [k + 1, k + 1]) ∧
    (uploadChannel cOut).filter isDoneEvent = [SSEEvent.done (zipNameOf cOut.resultsFolder)] ∧
    (uploadChannel cOut).getLast? = some (SSEEvent.done (zipNameOf cOut.resultsFolder)) := by
  have hok : runChecker cFolder cPubs cFailsAll "T" "D" = .ok cOut := by
    with_unfolding_all rfl
  have hmain := C6_progress_shape cFolder cPubs cFailsAll "T" "D" cOut hok
  exact ⟨hok, hmain.1, hmain.2.1, hmain.2.2⟩

theorem C7_empty_corpus_aborts_witness :
    corpusCells ([] : List CSVFile) = [] ∧
    runChecker [] [] (fun _ => false) "T" "D" = .error "No CSV files found in folder." := by
  have h : corpusCells ([] : List CSVFile) = [] := rfl
  refine ⟨h, ?_⟩
  have hmain := C7_empty_corpus_aborts [] [] (fun _ => false) "T" "D" h
  simpa using hmain

theorem C8_truncation_witness :
    (bigS.length > MAX_CELL_LENGTH ∧
     (truncateMatches bigS).length = MAX_CELL_LENGTH + 15 ∧
     " ...[truncated]".data <:+ (truncateMatches bigS).data) ∧
    ("AB".length ≤ MAX_CELL_LENGTH ∧ truncateMatches "AB" = "AB") := by
  have h1 : bigS.length > MAX_CELL_LENGTH := by
    show (List.replicate 32001 'A').length > 32000
    rw [List.length_replicate]
    omega
  have h2 : "AB".length ≤ MAX_CELL_LENGTH := by
    show (2 : Nat) ≤ 32000
    omega
  exact ⟨⟨h1, (C8_truncation bigS).1 h1⟩, ⟨h2, (C8_truncation "AB").2 h2⟩⟩

theorem C10_no_dedup_witness :
    loadCSVFolder wDupFolder = .ok wDupEntries ∧
    wDupEntries.map RefEntry.name = corpusCells wDupFolder ∧
    coversName "John Smit" "JOHN SMITH" = true ∧
    (corpusCells wDupFolder).count "JOHN SMITH" ≤ (searchName "John Smit" wDupEntries).length := by
  have hok : loadCSVFolder wDupFolder = .ok wDupEntries := by
    with_unfolding_all rfl
  have hmain := C10_no_dedup wDupFolder wDupEntries hok
  have hcov : coversName "John Smit" "JOHN SMITH" = true := by
    with_unfolding_all rfl
  exact ⟨hok, hmain.1, hcov, hmain.2 "John Smit" "JOHN SMITH" hcov⟩

theorem collapseWS_one (c : Char) :
    collapseWS [c] = if isWSChar c then [' '] else [c] := rfl

theorem collapseWS_two (c d : Char) (rest : List Char) :
    collapseWS (c :: d :: rest) =
      if isWSChar c && isWSChar d then collapseWS (d :: rest)
      else (if isWSChar c then ' ' else c) :: collapseWS (d :: rest) := rfl

theorem collapseWS_mem (l : List Char) :
    ∀ c ∈ collapseWS l, c = ' ' ∨ (c ∈ l ∧ isWSChar c = false) := by
  induction l using collapseWS.induct with
  | case1 => intro c hc; simp [collapseWS] at hc
  | case2 c hws =>
    intro x hx
    rw [collapseWS_one, if_pos hws] at hx
    exact Or.inl (List.mem_singleton.mp hx)
  | case3 c hws =>
    intro x hx
    rw [collapseWS_one, if_neg hws] at hx
    have hx' := List.mem_singleton.mp hx
    subst hx'
    exact Or.inr ⟨List.mem_singleton_self x, by simpa using hws⟩
  | case4 c d rest hws ih =>
    intro x hx
    rw [collapseWS_two, if_pos hws] at hx
    rcases ih x hx with h | ⟨hm, hw⟩
    · exact Or.inl h
    · exact Or.inr ⟨List.mem_cons_of_mem c hm, hw⟩
  | case5 c d rest hws ih =>
    intro x hx
    rw [collapseWS_two, if_neg hws] at hx
    rcases List.mem_cons.mp hx with h | h
    · by_cases hc : isWSChar c = true
      · rw [if_pos hc] at h; exact Or.inl h
      · rw [if_neg hc] at h; subst h
        exact Or.inr ⟨List.mem_cons_self _ _, by simpa using hc⟩
    · rcases ih x h with h2 | ⟨hm, hw⟩
      · exact Or.inl h2
      · exact Or.inr ⟨List.mem_cons_of_mem c hm, hw⟩

theorem collapseWS_cons_head (d : Char) (rest : List Char) (hd : isWSChar d = false) :
    ∃ t, collapseWS (d :: rest) = d :: t := by
  cases rest with
  | nil => exact ⟨[], by rw [collapseWS_one, if_neg (by simp [hd])]⟩
  | cons e rest' =>
    refine ⟨collapseWS (e :: rest'), ?_⟩
    rw [collapseWS_two, if_neg (by simp [hd]), if_neg (by simp [hd])]

theorem collapseWS_chain (l : List Char) : List.Chain' wsOK (collapseWS l) := by
  induction l using collapseWS.induct with
  | case1 => simp [collapseWS]
  | case2 c hws => rw [collapseWS_one, if_pos hws]; simp
  | case3 c hws => rw [collapseWS_one, if_neg hws]; simp
  | case4 c d rest hws ih => rw [collapseWS_two, if_pos hws]; exact ih
  | case5 c d rest hws ih =>
    rw [collapseWS_two, if_neg hws]
    rw [List.chain'_cons']
    refine ⟨?_, ih⟩
    intro y hy
    by_cases hc : isWSChar c = true
    · rw [if_pos hc]
      have hd : isWSChar d = false := by simpa [hc] using hws
      obtain ⟨t, ht⟩ := collapseWS_cons_head d rest hd
      rw [ht] at hy
      simp at hy
      subst hy
      intro hcontra
      rw [hd] at hcontra
      exact absurd hcontra.2 (by simp)
    · rw [if_neg hc]
      intro hcontra
      exact hc hcontra.1

theorem collapseWS_id (l : List Char) :
    (∀ c ∈ l, isWSChar c = true → c = ' ') → List.Chain' wsOK l →
    collapseWS l = l := by
  induction l using collapseWS.induct with
  | case1 => intro _ _; rfl
  | case2 c hws =>
    intro hs _
    rw [collapseWS_one, if_pos hws, hs c (List.mem_singleton_self c) hws]
  | case3 c hws =>
    intro _ _
    rw [collapseWS_one, if_neg hws]
  | case4 c d rest hws ih =>
    intro _ hch
    exfalso
    rw [Bool.and_eq_true] at hws
    exact (List.chain'_cons.mp hch).1 ⟨hws.1, hws.2⟩
  | case5 c d rest hws ih =>
    intro hs hch
    rw [collapseWS_two, if_neg hws]
    have hs' : ∀ x ∈ d :: rest, isWSChar x = true → x = ' ' :=
      fun x hx => hs x (List.mem_cons_of_mem c hx)
    rw [ih hs' (List.chain'_cons.mp hch).2]
    by_cases hc : isWSChar c = true
    · rw [if_pos hc, hs c (List.mem_cons_self _ _) hc]
    · rw [if_neg hc]

theorem chain_dropWhile {α : Type} {R : α → α → Prop} (p : α → Bool) (l : List α)
    (h : List.Chain' R l) : List.Chain' R (l.dropWhile p) := by
  induction l with
  | nil => exact h
  | cons a l ih =>
    rw [List.dropWhile_cons]
    by_cases hp : p a = true
    · rw [if_pos hp]
      exact ih (List.chain'_cons'.mp h).2
    · rw [if_neg hp]
      exact h

theorem head_dropWhile_false {α : Type} (p : α → Bool) (l : List α) :
    ∀ b ∈ (l.dropWhile p).head?, p b = false := by
  induction l with
  | nil => intro b hb; simp at hb
  | cons a l ih =>
    intro b hb
    rw [List.dropWhile_cons] at hb
    by_cases hp : p a = true
    · rw [if_pos hp] at hb; exact ih b hb
    · rw [if_neg hp] at hb
      simp at hb
      subst hb
      simpa using hp

theorem getLast_dropWhile {α : Type} (p : α → Bool) (l : List α)
    (h : l.dropWhile p ≠ []) : (l.dropWhile p).getLast? = l.getLast? := by
  induction l with
  | nil => simp at h
  | cons a l ih =>
    rw [List.dropWhile_cons]
    by_cases hp : p a = true
    · rw [List.dropWhile_cons, if_pos hp] at h
      rw [if_pos hp, ih h]
      have hl : l ≠ [] := by intro hnil; rw [hnil] at h; simp at h
      cases l with
      | nil => exact absurd rfl hl
      | cons b m => exact List.getLast?_cons_cons.symm
    · rw [if_neg hp]

theorem trimR_getLast (l : List Char) :
    ∀ b ∈ (trimR l).getLast?, isWSChar b = false := by
  intro b hb
  unfold trimR at hb
  rw [List.getLast?_reverse] at hb
  exact head_dropWhile_false isWSChar l.reverse b hb

theorem trimWS_head (l : List Char) :
    ∀ b ∈ (trimWS l).head?, isWSChar b = false := by
  intro b hb
  unfold trimWS trimL at hb
  exact head_dropWhile_false isWSChar (trimR l) b hb

theorem trimWS_getLast (l : List Char) :
    ∀ b ∈ (trimWS l).getLast?, isWSChar b = false := by
  intro b hb
  unfold trimWS trimL at hb
  by_cases hempty : (trimR l).dropWhile isWSChar = []
  · rw [hempty] at hb; simp at hb
  · rw [getLast_dropWhile _ _ hempty] at hb
    exact trimR_getLast l b hb

theorem trimL_eq_self (l : List Char) (h : ∀ b ∈ l.head?, isWSChar b = false) :
    trimL l = l := by
  unfold trimL
  cases l with
  | nil => rfl
  | cons a m =>
    rw [List.dropWhile_cons, if_neg (by simp [h a (by simp)])]

theorem trimR_eq_self (l : List Char) (h : ∀ b ∈ l.getLast?, isWSChar b = false) :
    trimR l = l := by
  unfold trimR
  have hid : l.reverse.dropWhile isWSChar = l.reverse := by
    cases hrev : l.reverse with
    | nil => rfl
    | cons a m =>
      have ha : a ∈ l.getLast? := by rw [← List.head?_reverse, hrev]; simp
      rw [List.dropWhile_cons, if_neg (by simp [h a ha])]
  rw [hid, List.reverse_reverse]

theorem trimWS_subset (l : List Char) : ∀ c ∈ trimWS l, c ∈ l := by
  intro c hc
  unfold trimWS trimL at hc
  have h1 : c ∈ trimR l := (List.dropWhile_sublist _).subset hc
  unfold trimR at h1
  rw [List.mem_reverse] at h1
  have h2 : c ∈ l.reverse := (List.dropWhile_sublist _).subset h1
  rw [List.mem_reverse] at h2
  exact h2

theorem trimWS_chain (l : List Char) (h : List.Chain' wsOK l) :
    List.Chain' wsOK (trimWS l) := by
  unfold trimWS trimL trimR
  apply chain_dropWhile
  rw [List.chain'_reverse]
  apply chain_dropWhile
  rw [List.chain'_reverse]
  exact h

theorem normCore_mem_props (d : List Char) :
    ∀ c ∈ normCore d, Char.toUpper c = c ∧ isStripChar c = false ∧
      (isWSChar c = true → c = ' ') := by
  intro c hc
  unfold normCore at hc
  have hv := trimWS_subset _ c hc
  rcases collapseWS_mem _ c hv with hsp | ⟨hu, hws⟩
  · subst hsp
    exact ⟨by decide, by decide, fun _ => rfl⟩
  · rcases List.mem_filter.mp hu with ⟨hmap, hstrip⟩
    rcases List.mem_map.mp hmap with ⟨c₀, _, rfl⟩
    exact ⟨toUpper_idem c₀, by simpa using hstrip,
      fun hcontra => absurd hcontra (by simp [hws])⟩

theorem normCore_idem (d : List Char) : normCore (normCore d) = normCore d := by
  have hprops := normCore_mem_props d
  have h1a : (normCore d).map Char.toUpper = (normCore d).map id :=
    List.map_congr_left (fun a ha => (hprops a ha).1)
  have h1 : (normCore d).map Char.toUpper = normCore d := by rw [h1a, List.map_id]
  have h2 : (normCore d).filter (fun c => !(isStripChar c)) = normCore d :=
    List.filter_eq_self.mpr (fun a ha => by simp [(hprops a ha).2.1])
  have hchain : List.Chain' wsOK (normCore d) := by
    unfold normCore
    exact trimWS_chain _ (collapseWS_chain _)
  have h3 : collapseWS (normCore d) = normCore d :=
    collapseWS_id _ (fun c hc => (hprops c hc).2.2) hchain
  have hlast : ∀ b ∈ (normCore d).getLast?, isWSChar b = false := by
    unfold normCore
    exact trimWS_getLast _
  have hhead : ∀ b ∈ (normCore d).head?, isWSChar b = false := by
    unfold normCore
    exact trimWS_head _
  have h4 : trimWS (normCore d) = normCore d := by
    unfold trimWS
    rw [trimR_eq_self _ hlast]
    exact trimL_eq_self _ hhead
  show trimWS (collapseWS (((normCore d).map Char.toUpper).filter
        (fun c => !(isStripChar c)))) = normCore d
  rw [h1, h2, h3, h4]

/-- C9: `normalizeText` is idempotent — normalizing an already-normalized
string returns it unchanged — and both `null` and the empty string map to
the empty string. -/
theorem C9_normalize_idempotent :
    (∀ v : Option String,
      normalizeTextVal (some (normalizeTextVal v)) = normalizeTextVal v) ∧
    normalizeTextVal none = "" ∧ normalizeText "" = "" := by
  refine ⟨?_, rfl, rfl⟩
  intro v
  have key : ∀ s : String, normalizeText (normalizeText s) = normalizeText s := by
    intro s
    unfold normalizeText
    by_cases h : s = ""
    · simp [h]
    · rw [if_neg h]
      by_cases h2 : (⟨normCore s.data⟩ : String) = ""
      · rw [if_pos h2, h2]
      · rw [if_neg h2]
        show (⟨normCore (⟨normCore s.data⟩ : String).data⟩ : String) =
          (⟨normCore s.data⟩ : String)
        exact congrArg String.mk (normCore_idem s.data)
  cases v with
  | none => rfl
  | some s => exact key s
